import Mathlib

/-!
# SWOT-Tool scoring/aggregation engine: shallow embedding and verification

This file embeds the scoring core of the SWOT-Tool repository
(`src/src/App.tsx`, a React client plus a serverless scoring handler)
into Lean and proves or refutes the specification's claims about it.

Conventions of the embedding:
* JavaScript `number` is modelled at three levels of fidelity, because the
  snapper's behaviour genuinely depends on IEEE rounding for large finite
  inputs.  `nearestFibQ` is the exact-rational idealization (subtraction
  performed exactly); `nearestFibF` adds the IEEE NaN/±∞ case analysis of
  `<=`, `-`, `abs` and `<`, which is exact, while keeping finite
  subtraction exact — sound only for conclusions that are insensitive to
  finite rounding (set membership, the nonpositive branch, NaN/±∞);
  `nearestFibD` models finite doubles faithfully by rounding the computed
  difference `n - f` with IEEE round-to-nearest-even (`roundDouble`).  At
  huge inputs `nearestFibD` diverges from the idealization: every computed
  distance rounds back to `n` and the loop returns the seed `1`.
* `undefined`/missing values become `Option`, thrown exceptions become
  `Except`.
* React state updates are modelled explicitly: a `setCriterionScore` call
  computes the scenario's whole new `criteria` record from the `selected`
  value captured by the closure (the "snapshot"), exactly as the source
  does with `{ ...selected.criteria, ... }`.
-/

namespace Swot

/-! ## Data model (App.tsx lines 4-27) -/

/-- The four SWOT areas; `type Area = "S" | "W" | "O" | "T"`. -/
inductive Area where
  | S
  | W
  | O
  | T
deriving DecidableEq, Repr

/-- `const AREAS: Area[] = ["S", "W", "O", "T"]`. -/
def AREAS : List Area := [Area.S, Area.W, Area.O, Area.T]

/-- `type Criterion = { id: string; text: string; score?: number }`. -/
structure Criterion where
  id : String
  text : String
  score : Option ℚ
deriving DecidableEq, Repr

/-- `type Scenario` (App.tsx lines 6-12): id, name, description, attachment
names, and one criterion list per area. -/
structure Scenario where
  id : String
  name : String
  description : String
  files : List String
  criteria : Area → List Criterion

/-- `type Weights = Record<Area, number>`. -/
def Weights : Type := Area → ℚ

/-- The fixed scale `const FIB = [1, 2, 3, 5, 8, 13, 21, 34, 55, 89, 144,
233, 377, 610, 987, 1597]` (App.tsx lines 16-18, identical on the server
side, lines 663-665). -/
def FIB : List ℚ := [1, 2, 3, 5, 8, 13, 21, 34, 55, 89, 144, 233, 377, 610, 987, 1597]

/-! ## Floating-point values

`nearestFib` in the client can receive arbitrary doubles.  It only uses
`n <= 0`, subtraction by a small integer, `Math.abs` and `<`, so the
IEEE behaviour is captured exactly by distinguishing NaN, `+Infinity`,
`-Infinity` and finite values. -/

/-- A JavaScript `number` as seen by `nearestFib`: NaN, an infinity, or a
finite value (modelled exactly as a rational). -/
inductive FloatVal where
  | nan
  | posInf
  | negInf
  | fin (q : ℚ)
deriving DecidableEq, Repr

/-- IEEE `n <= 0`: false for NaN and `+Infinity`, true for `-Infinity`. -/
def FloatVal.le0 : FloatVal → Bool
  | nan => false
  | posInf => false
  | negInf => true
  | fin q => decide (q ≤ 0)

/-- IEEE subtraction `n - f` of a finite value `f` from `n`. -/
def FloatVal.sub : FloatVal → ℚ → FloatVal
  | nan, _ => nan
  | posInf, _ => posInf
  | negInf, _ => negInf
  | fin q, f => fin (q - f)

/-- IEEE `Math.abs`. -/
def FloatVal.fabs : FloatVal → FloatVal
  | nan => nan
  | posInf => posInf
  | negInf => posInf
  | fin q => fin |q|

/-- IEEE `<`: any comparison with NaN is false. -/
def FloatVal.flt : FloatVal → FloatVal → Bool
  | nan, _ => false
  | _, nan => false
  | fin a, fin b => decide (a < b)
  | fin _, posInf => true
  | negInf, posInf => true
  | negInf, fin _ => true
  | posInf, _ => false
  | _, negInf => false

/-! ## ScaleSnapper -/

/-- The loop body of `nearestFib`, tracking `(best, minDiff)`, with the
distance `Math.abs(n - f)` computed exactly in ℚ (idealization: the real
program computes it in IEEE doubles — see `fibStepD`). -/
def fibStep (n : ℚ) (acc : ℚ × ℚ) (f : ℚ) : ℚ × ℚ :=
  if |n - f| < acc.2 then (f, |n - f|) else acc

/-- Client-side `nearestFib` (App.tsx lines 32-46) under the exact-real
idealization of `number` (no rounding of `n - f`; see `nearestFibD` for
the rounding-faithful embedding — the two differ for huge `n`):

```
if (n <= 0) return 0;
let best = FIB[0];
let minDiff = Math.abs(n - best);
for (const f of FIB) { const d = Math.abs(n - f);
  if (d < minDiff) { best = f; minDiff = d; } }
return best;
```
-/
def nearestFibQ (n : ℚ) : ℚ :=
  if n ≤ 0 then 0
  else (FIB.foldl (fibStep n) (FIB.headD 0, |n - FIB.headD 0|)).1

/-- The unit in the last place of the positive rational `x` read as an IEEE
binary64 double with a 53-bit significand: `2 ^ (⌊log₂ x⌋ - 52)`.  The
exponent is unbounded, i.e. subnormals and overflow are not modelled; this
agrees with binary64 whenever `x ∈ [2^(-1022), 2^1024)`, which covers every
value occurring in this development. -/
def dUlp (x : ℚ) : ℚ := (2 : ℚ) ^ (Int.log 2 x - 52)

/-- IEEE round-to-nearest of a positive rational onto a double: round to
the nearest multiple of the ulp, ties to the even significand. -/
def roundDpos (x : ℚ) : ℚ :=
  if (x - ⌊x / dUlp x⌋ * dUlp x) * 2 < dUlp x then ⌊x / dUlp x⌋ * dUlp x
  else if dUlp x < (x - ⌊x / dUlp x⌋ * dUlp x) * 2 then (⌊x / dUlp x⌋ + 1) * dUlp x
  else if ⌊x / dUlp x⌋ % 2 = 0 then ⌊x / dUlp x⌋ * dUlp x
  else (⌊x / dUlp x⌋ + 1) * dUlp x

/-- IEEE round-to-nearest-even of an exact rational value onto the doubles
(sign handled symmetrically, as IEEE rounding is odd). -/
def roundDouble (x : ℚ) : ℚ :=
  if x = 0 then 0
  else if 0 < x then roundDpos x
  else -roundDpos (-x)

/-- The loop body of `nearestFib` under IEEE double arithmetic: the
subtraction `n - f` rounds (`roundDouble`), while `Math.abs` and the `<`
comparison are exact on doubles. -/
def fibStepD (n : ℚ) (acc : ℚ × ℚ) (f : ℚ) : ℚ × ℚ :=
  if |roundDouble (n - f)| < acc.2 then (f, |roundDouble (n - f)|) else acc

/-- Client-side `nearestFib` (App.tsx lines 32-46) on finite doubles, with
the computed distance `Math.abs(n - f)` rounded as IEEE binary64 rounds it;
the input `n` is itself a double (exactly representable rational).  This is
the rounding-faithful embedding of the same source lines as `nearestFibQ`. -/
def nearestFibD (n : ℚ) : ℚ :=
  if n ≤ 0 then 0
  else (FIB.foldl (fibStepD n) (FIB.headD 0, |roundDouble (n - FIB.headD 0)|)).1

/-- The loop body of `nearestFib` on arbitrary doubles. -/
def fibStepF (n : FloatVal) (acc : ℚ × FloatVal) (f : ℚ) : ℚ × FloatVal :=
  if (n.sub f).fabs.flt acc.2 then (f, (n.sub f).fabs) else acc

/-- Client-side `nearestFib` on arbitrary doubles (same source lines as
`nearestFibQ`, with NaN/±∞ tracked). -/
def nearestFibF (n : FloatVal) : ℚ :=
  if n.le0 then 0
  else (FIB.foldl (fibStepF n) (FIB.headD 0, (FloatVal.sub n (FIB.headD 0)).fabs)).1

/-- The reducer of `snapFib`. -/
def snapStep (n : ℚ) (p c : ℚ) : ℚ :=
  if |c - n| < |p - n| then c else p

/-- Server-side `snapFib` (App.tsx lines 666-667):
`FIB.reduce((p, c) => (Math.abs(c - n) < Math.abs(p - n) ? c : p))` —
`reduce` with no seed starts from the first element and folds the rest. -/
def snapFib (n : ℚ) : ℚ :=
  (FIB.drop 1).foldl (snapStep n) (FIB.headD 0)

/-! ## AggregationEngine -/

/-- `mean` (App.tsx lines 49-53): 0 on the empty list, otherwise
`reduce((a, b) => a + b, 0)` divided by the length. -/
def mean (values : List ℚ) : ℚ :=
  if values.length = 0 then 0
  else values.foldl (· + ·) 0 / (values.length : ℚ)

/-- The scored values of an area, as computed inside `perScenarioStats`
(App.tsx lines 84-86): `map((c) => c.score).filter(typeof v === "number")`. -/
def scoredVals (cs : List Criterion) : List ℚ :=
  (cs.map (fun c => c.score)).filterMap id

/-- Per-area means of one scenario (App.tsx lines 82-88). -/
def computeMeans (s : Scenario) : Area → ℚ :=
  fun a => mean (scoredVals (s.criteria a))

/-- The weighted total (App.tsx lines 89-93). -/
def computeTotal (means : Area → ℚ) (w : Weights) : ℚ :=
  means Area.S * w Area.S + means Area.W * w Area.W +
    means Area.O * w Area.O + means Area.T * w Area.T

/-- One row of `perScenarioStats`. -/
structure Stat where
  id : String
  name : String
  means : Area → ℚ
  total : ℚ

/-- `perScenarioStats` (App.tsx lines 80-97). -/
def perScenarioStats (w : Weights) (scenarios : List Scenario) : List Stat :=
  scenarios.map (fun s =>
    { id := s.id
      name := s.name
      means := computeMeans s
      total := computeTotal (computeMeans s) w })

/-- The order used by the ranking comparator `(a, b) => b.total - a.total`:
`a` may come before `b` exactly when `a.total ≥ b.total`. -/
def rankLE (a b : Stat) : Prop := b.total ≤ a.total

instance : DecidableRel rankLE :=
  fun a b => inferInstanceAs (Decidable (b.total ≤ a.total))

instance : IsTotal Stat rankLE :=
  ⟨fun a b => le_total b.total a.total⟩

instance : IsTrans Stat rankLE :=
  ⟨fun _ _ _ hab hbc => le_trans hbc hab⟩

/-- `sortedForRanking` (App.tsx lines 99-101):
`[...perScenarioStats].sort((a, b) => b.total - a.total)`.  ECMAScript
`Array.prototype.sort` with a consistent comparator is specified to produce
the stable descending order, which is the unique stable-sorted permutation;
it is embedded as a stable insertion sort under `rankLE`. -/
def sortedForRanking (w : Weights) (scenarios : List Scenario) : List Stat :=
  List.insertionSort rankLE (perScenarioStats w scenarios)

/-! ## ScenarioStore handlers (App.tsx lines 61-69, 110-127) -/

/-- `addScenario` (App.tsx lines 110-120) appends one freshly built scenario
to the list; the fresh scenario (random `uid()`, generated display name) is
taken as a parameter. -/
def addScenario (s : Scenario) (l : List Scenario) : List Scenario :=
  l ++ [s]

/-- `removeScenario` (App.tsx lines 122-127):
`const next = scenarios.filter((s) => s.id !== id); if (!next.length) return;`
— the removal is a no-op when it would leave the list empty. -/
def removeScenario (rid : String) (l : List Scenario) : List Scenario :=
  let next := l.filter (fun s => s.id != rid)
  if next.isEmpty then l else next

/-- An operation on the scenario set. -/
inductive ScenarioOp where
  | add (s : Scenario)
  | remove (id : String)

/-- Dispatch one scenario-set operation. -/
def applyScenarioOp (l : List Scenario) : ScenarioOp → List Scenario
  | ScenarioOp.add s => addScenario s l
  | ScenarioOp.remove rid => removeScenario rid l

/-- The initial `useState` value (App.tsx lines 61-69): a single scenario. -/
def initialScenarios (s0 : Scenario) : List Scenario := [s0]

/-- Run a sequence of add/remove operations from the initial state. -/
def runScenarioOps (s0 : Scenario) (ops : List ScenarioOp) : List Scenario :=
  ops.foldl applyScenarioOp (initialScenarios s0)

/-! ## ExternalScoringOrchestrator, client side (App.tsx lines 166-236) -/

/-- A value found in the parsed response mapping under some criterion id:
either a JavaScript number (possibly NaN/±∞) or a non-number. -/
inductive RawVal where
  | num (v : FloatVal)
  | other
deriving DecidableEq, Repr

/-- `setCriterionScore` (App.tsx lines 166-179) composed with
`updateScenario` (lines 104-108): the new `criteria` record of the selected
scenario is computed entirely from the closure-captured `selected` value
(the snapshot), via
`{ ...selected.criteria, [area]: selected.criteria[area].map((c) => c.id === id ? { ...c, score } : c) }`. -/
def setCriterionScore (snapshot : Area → List Criterion) (area : Area) (cid : String)
    (score : Option ℚ) : Area → List Criterion :=
  fun a =>
    if a = area then
      (snapshot area).map (fun c => if c.id = cid then { c with score := score } else c)
    else snapshot a

/-- The list of `setCriterionScore` calls issued by the success path of
`aiScoreAll` (App.tsx lines 219-228): for each area in `AREAS` and each
criterion of the (snapshot) scenario, if the response mapping for that area
has an entry for the criterion's id of type number and not NaN, one call
with the snapped value. -/
def scoreUpdates (data : Area → String → Option RawVal) (snapshot : Area → List Criterion) :
    List (Area × String × ℚ) :=
  AREAS.flatMap (fun a =>
    (snapshot a).filterMap (fun c =>
      match data a c.id with
      | some (RawVal.num FloatVal.nan) => none
      | some (RawVal.num v) => some (a, c.id, nearestFibF v)
      | _ => none))

/-- The state mutation performed by the success path of `aiScoreAll`: the
queued `setCriterionScore` updates are applied in order, but each computes
the whole new `criteria` record from the stale snapshot, so each application
discards the accumulated state. -/
def applyScores (data : Area → String → Option RawVal) (snapshot : Area → List Criterion) :
    Area → List Criterion :=
  (scoreUpdates data snapshot).foldl
    (fun _cur u => setCriterionScore snapshot u.1 u.2.1 (some u.2.2)) snapshot

/-- The `fetch` response as seen by `aiScoreAll`: HTTP status, status text,
body text, and the parsed JSON mapping (`none` when `res.json()` throws). -/
structure HttpResponse where
  status : ℕ
  statusText : String
  body : String
  json : Option (Area → String → Option RawVal)

/-- Outcome of the `fetch` call itself: a response, or a thrown
transport-level error. -/
inductive FetchResult where
  | ok (r : HttpResponse)
  | err (msg : String)

/-- The user-facing failure surfaced via `alert`. -/
inductive Failure where
  | rejected (status : ℕ) (statusText : String) (body : String)
  | scoringError (msg : String)
deriving DecidableEq, Repr

/-- `res.ok`: HTTP status in the range 200-299. -/
def resOk (r : HttpResponse) : Bool :=
  decide (200 ≤ r.status) && decide (r.status < 300)

/-- `aiScoreAll` (App.tsx lines 181-236), given the fetch outcome and the
snapshot of the selected scenario's criteria: returns the final criteria of
the selected scenario and the surfaced failure, if any.  A non-ok response
alerts and returns before any `setCriterionScore` call; a thrown error
(transport failure, or `res.json()` failing) lands in the catch block. -/
def aiScoreAll (res : FetchResult) (snapshot : Area → List Criterion) :
    (Area → List Criterion) × Option Failure :=
  match res with
  | FetchResult.err m => (snapshot, some (Failure.scoringError m))
  | FetchResult.ok r =>
    if resOk r then
      match r.json with
      | some data => (applyScores data snapshot, none)
      | none => (snapshot, some (Failure.scoringError r.body))
    else (snapshot, some (Failure.rejected r.status r.statusText r.body))

/-! ## Serverless scoring handler (App.tsx lines 688-743) -/

/-- A criterion as sent to the endpoint: `{ id, text }`. -/
structure CritIn where
  id : String
  text : String
deriving DecidableEq, Repr

/-- `scoreOne` (App.tsx lines 688-701), with the external model call
abstracted as `judge`: `Except.error` models a thrown exception (the API
call or `JSON.parse` failing), `Except.ok none` a parsed payload whose
`score` field is not a number, `Except.ok (some q)` a numeric `score`.
A non-numeric or missing judgment is replaced by the raw value 0:
`const raw = typeof payload.score === 'number' ? payload.score : 0;
return snapFib(raw);`. -/
def scoreOne (judge : String → Except Unit (Option ℚ)) (text : String) : Except Unit ℚ :=
  match judge text with
  | Except.error e => Except.error e
  | Except.ok payloadScore => Except.ok (snapFib (payloadScore.getD 0))

/-- The handler's per-area processing (App.tsx lines 731-737):
`await Promise.all(list.map(async (c) => ({ id: c.id, v: await scoreOne(...) })))`
followed by `for (const r of results) out[area][r.id] = r.v`.  `Promise.all`
rejects as soon as any sub-promise rejects, so one failing `scoreOne`
fails the whole batch; on success every criterion contributes its entry in
order. -/
def processArea (judge : String → Except Unit (Option ℚ)) :
    List CritIn → Except Unit (List (String × ℚ))
  | [] => Except.ok []
  | c :: rest =>
    match scoreOne judge c.text with
    | Except.error e => Except.error e
    | Except.ok v =>
      match processArea judge rest with
      | Except.error e => Except.error e
      | Except.ok m => Except.ok ((c.id, v) :: m)

/-- `handler`'s scoring loop (App.tsx lines 724-742): the four areas are
awaited in order and an unhandled rejection propagates out of the handler. -/
def handler (judge : String → Except Unit (Option ℚ)) (criteria : Area → List CritIn) :
    Except Unit (Area → List (String × ℚ)) :=
  match processArea judge (criteria Area.S) with
  | Except.error e => Except.error e
  | Except.ok s =>
    match processArea judge (criteria Area.W) with
    | Except.error e => Except.error e
    | Except.ok w =>
      match processArea judge (criteria Area.O) with
      | Except.error e => Except.error e
      | Except.ok o =>
        match processArea judge (criteria Area.T) with
        | Except.error e => Except.error e
        | Except.ok t =>
          Except.ok (fun a =>
            match a with
            | Area.S => s
            | Area.W => w
            | Area.O => o
            | Area.T => t)

/-! ## Spec-side comparison definition and concrete test fixtures -/

/-- The spec's wording of the per-area mean, for comparison with
`computeMeans`: "the arithmetic mean of all scored criteria in that Area
(criteria whose score is present, including an explicit zero).  Unscored
criteria are excluded from both the count and the sum"; "If an Area has
zero scored criteria, its mean is defined as 0". -/
def specAreaMean (cs : List Criterion) : ℚ :=
  let scored := cs.filter (fun c => c.score.isSome)
  if scored.length = 0 then 0
  else (scored.map (fun c => c.score.getD 0)).sum / (scored.length : ℚ)

/-- A scenario with no criteria at all. -/
def emptyScenario : Scenario :=
  { id := "s1", name := "Szenario A", description := "", files := [], criteria := fun _ => [] }

/-- A scenario whose S area has scores `[5, −, 3]` (one unscored). -/
def exampleScenario : Scenario :=
  { id := "s2", name := "Szenario B", description := "", files := []
    criteria := fun a =>
      match a with
      | Area.S => [{ id := "k1", text := "a", score := some 5 },
                   { id := "k2", text := "b", score := none },
                   { id := "k3", text := "c", score := some 3 }]
      | _ => [] }

/-- Snapshot for the orchestration counterexample: two unscored criteria in
area S. -/
def cexSnapshot : Area → List Criterion :=
  fun a =>
    match a with
    | Area.S => [{ id := "c1", text := "t1", score := none },
                 { id := "c2", text := "t2", score := none }]
    | _ => []

/-- Successful response mapping carrying finite scores for both criteria of
`cexSnapshot`. -/
def cexData : Area → String → Option RawVal :=
  fun a cid =>
    match a, cid with
    | Area.S, "c1" => some (RawVal.num (FloatVal.fin 4))
    | Area.S, "c2" => some (RawVal.num (FloatVal.fin 6))
    | _, _ => none

/-- A judge whose sub-call throws on the text "bad" and judges every other
text as 5. -/
def cexJudge : String → Except Unit (Option ℚ) :=
  fun t => if t = "bad" then Except.error () else Except.ok (some 5)

/-- A judge whose parsed payload never has a numeric `score` field. -/
def judgeNone : String → Except Unit (Option ℚ) :=
  fun _ => Except.ok none

/-! # Theorems

## Fold lemmas for the snappers -/

/-- If the seed is at most every list element and the target is at most the
seed, the `snapFib` reducer never moves off the seed. -/
theorem snapFold_const (n p : ℚ) :
    ∀ l : List ℚ, (∀ c ∈ l, p ≤ c) → n ≤ p → l.foldl (snapStep n) p = p := by
  intro l
  induction l with
  | nil => intro _ _; rfl
  | cons c rest ih =>
    intro h hn
    have hpc : p ≤ c := h c (List.mem_cons_self c rest)
    have hnc : ¬ |c - n| < |p - n| := by
      rw [abs_of_nonneg (by linarith), abs_of_nonneg (by linarith)]
      linarith
    have hstep : snapStep n p c = p := by simp [snapStep, hnc]
    calc (c :: rest).foldl (snapStep n) p
        = rest.foldl (snapStep n) (snapStep n p c) := rfl
      _ = rest.foldl (snapStep n) p := by rw [hstep]
      _ = p := ih (fun d hd => h d (List.mem_cons_of_mem c hd)) hn

/-- The `snapFib` reducer only ever returns the seed or a list element. -/
theorem snapFold_mem (n : ℚ) :
    ∀ (l : List ℚ) (p : ℚ), l.foldl (snapStep n) p = p ∨ l.foldl (snapStep n) p ∈ l := by
  intro l
  induction l with
  | nil => intro p; left; rfl
  | cons c rest ih =>
    intro p
    rcases ih (snapStep n p c) with h | h
    · show rest.foldl (snapStep n) (snapStep n p c) = p ∨
        rest.foldl (snapStep n) (snapStep n p c) ∈ c :: rest
      rw [h]
      by_cases hc : |c - n| < |p - n|
      · right
        simp [snapStep, hc]
      · left
        simp [snapStep, hc]
    · right
      exact List.mem_cons_of_mem c h

/-- `snapFib` always lands on a scale member. -/
theorem snapFib_mem (n : ℚ) : snapFib n ∈ FIB := by
  have h := snapFold_mem n (FIB.drop 1) (FIB.headD 0)
  unfold snapFib
  rcases h with h | h
  · rw [h]
    decide
  · exact List.mem_of_mem_drop h

/-- The `nearestFib` loop (float version) only ever returns the seed's best
or a list element. -/
theorem fibFoldF_mem (n : FloatVal) :
    ∀ (l : List ℚ) (acc : ℚ × FloatVal),
      (l.foldl (fibStepF n) acc).1 = acc.1 ∨ (l.foldl (fibStepF n) acc).1 ∈ l := by
  intro l
  induction l with
  | nil => intro _; left; rfl
  | cons c rest ih =>
    intro acc
    rcases ih (fibStepF n acc c) with h | h
    · show (rest.foldl (fibStepF n) (fibStepF n acc c)).1 = acc.1 ∨
        (rest.foldl (fibStepF n) (fibStepF n acc c)).1 ∈ c :: rest
      rw [h]
      cases hc : (FloatVal.sub n c).fabs.flt acc.2 with
      | true =>
        right
        simp [fibStepF, hc]
      | false =>
        left
        simp [fibStepF, hc]
    · right
      exact List.mem_cons_of_mem c h

/-! ## C1 — snapping of nonpositive inputs -/

/-- C1 (counterexample): the claim says the ScaleSnapper implemented as
`nearestFib` maps every `n ≤ 0` to the scale's lowest member 1; in fact
`nearestFib` returns 0 there (`if (n <= 0) return 0;`), already at the
concrete input −1, and 0 is not a scale member. -/
theorem c1_nearestFib_nonpos_counterexample :
    (-1 : ℚ) ≤ 0 ∧ nearestFibQ (-1) = 0 ∧ nearestFibQ (-1) ≠ 1 ∧ (0 : ℚ) ∉ FIB := by
  decide

/-- C1 (amended): for every input `n ≤ 0` the client-side `nearestFib`
returns 0 (not the scale's lowest member), while the service-side `snapFib`
does return the scale's lowest member 1. -/
theorem c1_nearestFib_nonpos_amended (q : ℚ) (h : q ≤ 0) :
    nearestFibQ q = 0 ∧ snapFib q = 1 := by
  constructor
  · simp [nearestFibQ, h]
  · have h1 : ∀ c ∈ FIB.drop 1, (1 : ℚ) ≤ c := by decide
    have hfold := snapFold_const q 1 (FIB.drop 1) h1 (by linarith)
    unfold snapFib
    have hh : FIB.headD 0 = (1 : ℚ) := rfl
    rw [hh]
    exact hfold

/-- Witness for `c1_nearestFib_nonpos_amended` at the concrete input −3. -/
theorem c1_nearestFib_nonpos_amended_witness :
    nearestFibQ (-3) = 0 ∧ snapFib (-3) = 1 :=
  c1_nearestFib_nonpos_amended (-3) (by norm_num)

/-! ## C10 — totality and range of `nearestFib` over all doubles -/

/-- C10: `nearestFib` is total over every floating-point input and its
result is in {0} ∪ FIB: inputs where `n <= 0` evaluates true (−∞ and
nonpositive finite values) yield 0, every other input (NaN, +∞, positive
finite values) yields a scale member, and NaN and +∞ both yield the scale
minimum 1. -/
theorem c10_nearestFib_float_total (v : FloatVal) :
    (nearestFibF v = 0 ∨ nearestFibF v ∈ FIB) ∧
    (v.le0 = true → nearestFibF v = 0) ∧
    (v.le0 = false → nearestFibF v ∈ FIB) ∧
    nearestFibF FloatVal.nan = 1 ∧
    nearestFibF FloatVal.posInf = 1 ∧
    nearestFibF FloatVal.negInf = 0 := by
  have hzero : v.le0 = true → nearestFibF v = 0 := by
    intro h
    unfold nearestFibF
    rw [h]
    simp
  have hmem : v.le0 = false → nearestFibF v ∈ FIB := by
    intro h
    unfold nearestFibF
    rw [h]
    simp only [Bool.false_eq_true, if_false]
    rcases fibFoldF_mem v FIB (FIB.headD 0, (FloatVal.sub v (FIB.headD 0)).fabs) with h1 | h1
    · rw [h1]
      show FIB.headD 0 ∈ FIB
      decide
    · exact h1
  refine ⟨?_, hzero, hmem, by decide, by decide, by decide⟩
  cases hle : v.le0 with
  | true => exact Or.inl (hzero hle)
  | false => exact Or.inr (hmem hle)

/-- Witness for `c10_nearestFib_float_total`, discharging both hypothesis
branches at concrete inputs. -/
theorem c10_nearestFib_float_total_witness :
    nearestFibF (FloatVal.fin (-2)) = 0 ∧ nearestFibF (FloatVal.fin 7) ∈ FIB :=
  ⟨(c10_nearestFib_float_total (FloatVal.fin (-2))).2.1 (by decide),
   (c10_nearestFib_float_total (FloatVal.fin 7)).2.2.1 (by decide)⟩

/-! ## C4 — nearest member with tie to the smaller value -/

/-- Invariant of the `nearestFib` loop over a sorted tail: the accumulator
tracks `(best, |n - best|)`; the result's distance is minimal over the seed
and every processed element, the best only moves on a strict improvement,
and in case of a distance tie the result is at most the tied element. -/
theorem fibFold_spec (n : ℚ) :
    ∀ (l : List ℚ) (acc : ℚ × ℚ), acc.2 = |n - acc.1| →
      (∀ f ∈ l, acc.1 ≤ f) → l.Pairwise (· ≤ ·) →
      (l.foldl (fibStep n) acc).2 = |n - (l.foldl (fibStep n) acc).1| ∧
      ((l.foldl (fibStep n) acc).1 = acc.1 ∨ (l.foldl (fibStep n) acc).1 ∈ l) ∧
      (l.foldl (fibStep n) acc).2 ≤ acc.2 ∧
      (∀ f ∈ l, (l.foldl (fibStep n) acc).2 ≤ |n - f|) ∧
      (∀ f ∈ l, |n - f| = (l.foldl (fibStep n) acc).2 → (l.foldl (fibStep n) acc).1 ≤ f) ∧
      ((l.foldl (fibStep n) acc).2 = acc.2 → (l.foldl (fibStep n) acc).1 = acc.1) := by
  intro l
  induction l with
  | nil =>
    intro acc h2 _ _
    exact ⟨h2, Or.inl rfl, le_refl _, by simp, by simp, fun _ => rfl⟩
  | cons c rest ih =>
    intro acc h2 hle hpair
    have hrest_pair : rest.Pairwise (· ≤ ·) := hpair.of_cons
    have hc_le : ∀ f ∈ rest, c ≤ f := (List.pairwise_cons.mp hpair).1
    by_cases himp : |n - c| < acc.2
    · have hstep : fibStep n acc c = (c, |n - c|) := by simp [fibStep, himp]
      have hfold : (c :: rest).foldl (fibStep n) acc = rest.foldl (fibStep n) (c, |n - c|) := by
        show rest.foldl (fibStep n) (fibStep n acc c) = _
        rw [hstep]
      obtain ⟨i1, i2, i3, i4, i5, i6⟩ := ih (c, |n - c|) rfl hc_le hrest_pair
      rw [hfold]
      refine ⟨i1, ?_, ?_, ?_, ?_, ?_⟩
      · rcases i2 with h | h
        · exact Or.inr (h ▸ List.mem_cons_self c rest)
        · exact Or.inr (List.mem_cons_of_mem c h)
      · exact le_trans i3 (le_of_lt himp)
      · intro f hf
        rcases List.mem_cons.mp hf with rfl | hf
        · exact i3
        · exact i4 f hf
      · intro f hf htie
        rcases List.mem_cons.mp hf with rfl | hf
        · exact le_of_eq (i6 htie.symm)
        · exact i5 f hf htie
      · intro h6
        exfalso
        have := i3
        simp only [] at this
        linarith
    · have hstep : fibStep n acc c = acc := by simp [fibStep, himp]
      have hfold : (c :: rest).foldl (fibStep n) acc = rest.foldl (fibStep n) acc := by
        show rest.foldl (fibStep n) (fibStep n acc c) = _
        rw [hstep]
      have hle_rest : ∀ f ∈ rest, acc.1 ≤ f := fun f hf => hle f (List.mem_cons_of_mem c hf)
      obtain ⟨i1, i2, i3, i4, i5, i6⟩ := ih acc h2 hle_rest hrest_pair
      rw [hfold]
      have hnc : acc.2 ≤ |n - c| := le_of_not_lt himp
      refine ⟨i1, ?_, i3, ?_, ?_, i6⟩
      · rcases i2 with h | h
        · exact Or.inl h
        · exact Or.inr (List.mem_cons_of_mem c h)
      · intro f hf
        rcases List.mem_cons.mp hf with rfl | hf
        · exact le_trans i3 hnc
        · exact i4 f hf
      · intro f hf htie
        rcases List.mem_cons.mp hf with rfl | hf
        · have heq : (rest.foldl (fibStep n) acc).2 = acc.2 :=
            le_antisymm i3 (htie ▸ hnc)
          rw [i6 heq]
          exact hle f (List.mem_cons_self f rest)
        · exact i5 f hf htie

/-- For positive input, `nearestFib` lands on a scale member whose distance
to the input is minimal, and among equally close members it picks the
smallest. -/
theorem nearestFibQ_spec (n : ℚ) (h : 0 < n) :
    nearestFibQ n ∈ FIB ∧
    (∀ f ∈ FIB, |n - nearestFibQ n| ≤ |n - f|) ∧
    (∀ f ∈ FIB, |n - f| = |n - nearestFibQ n| → nearestFibQ n ≤ f) := by
  have hnle : ¬ n ≤ 0 := not_le.mpr h
  have hdef : nearestFibQ n = (FIB.foldl (fibStep n) (FIB.headD 0, |n - FIB.headD 0|)).1 := by
    simp [nearestFibQ, hnle]
  have hle : ∀ f ∈ FIB, ((FIB.headD 0 : ℚ), |n - FIB.headD 0|).1 ≤ f := by
    show ∀ f ∈ FIB, (FIB.headD 0 : ℚ) ≤ f
    decide
  have hpair : FIB.Pairwise (· ≤ ·) := by decide
  obtain ⟨i1, i2, i3, i4, i5, i6⟩ := fibFold_spec n FIB (FIB.headD 0, |n - FIB.headD 0|) rfl hle hpair
  rw [hdef]
  refine ⟨?_, ?_, ?_⟩
  · rcases i2 with h1 | h1
    · rw [h1]
      show FIB.headD 0 ∈ FIB
      decide
    · exact h1
  · intro f hf
    rw [← i1]
    exact i4 f hf
  · intro f hf htie
    exact i5 f hf (htie.trans i1.symm)

/-- At the exact midpoint of two scale members that are adjacent in the
scale, `nearestFib` resolves the tie to the smaller member. -/
theorem nearestFibQ_midpoint (a b : ℚ) (ha : a ∈ FIB) (_hb : b ∈ FIB) (hab : a < b)
    (hadj : ∀ f ∈ FIB, f ≤ a ∨ b ≤ f) :
    nearestFibQ ((a + b) / 2) = a := by
  have ha1 : (1 : ℚ) ≤ a := by
    have hall : ∀ f ∈ FIB, (1 : ℚ) ≤ f := by decide
    exact hall a ha
  have hmid : (0 : ℚ) < (a + b) / 2 := by linarith
  obtain ⟨r1, r2, r3⟩ := nearestFibQ_spec ((a + b) / 2) hmid
  have hna : |(a + b) / 2 - a| = (b - a) / 2 := by
    rw [abs_of_nonneg (by linarith)]
    ring
  have hd : |(a + b) / 2 - nearestFibQ ((a + b) / 2)| ≤ (b - a) / 2 := by
    rw [← hna]
    exact r2 a ha
  rcases hadj (nearestFibQ ((a + b) / 2)) r1 with hra | hrb
  · have habs : |(a + b) / 2 - nearestFibQ ((a + b) / 2)| =
        (a + b) / 2 - nearestFibQ ((a + b) / 2) := abs_of_nonneg (by linarith)
    rw [habs] at hd
    linarith
  · exfalso
    have habs : |(a + b) / 2 - nearestFibQ ((a + b) / 2)| =
        nearestFibQ ((a + b) / 2) - (a + b) / 2 := by
      rw [abs_sub_comm]
      exact abs_of_nonneg (by linarith)
    rw [habs] at hd
    have heq2 : nearestFibQ ((a + b) / 2) - (a + b) / 2 = (b - a) / 2 :=
      le_antisymm hd (by linarith)
    have hle2 : nearestFibQ ((a + b) / 2) ≤ a := r3 a ha (by rw [hna, habs, heq2])
    linarith

/-! Rounding facts about `roundDouble`, needed to settle what the double
program computes: integers below `2^53` are exact, and values just below
`2^70` round up to `2^70`. -/

/-- The ulp is always positive. -/
theorem dUlp_pos (x : ℚ) : (0 : ℚ) < dUlp x := zpow_pos (by norm_num) _

/-- A positive value that is an exact multiple of its ulp rounds to
itself. -/
theorem roundDpos_eq_self (x : ℚ) (m : ℤ) (hm : x / dUlp x = (m : ℚ)) :
    roundDpos x = x := by
  have hu : (0 : ℚ) < dUlp x := dUlp_pos x
  have hfl : ⌊x / dUlp x⌋ = m := by rw [hm]; exact Int.floor_intCast m
  have hx : (m : ℚ) * dUlp x = x := by
    rw [← hm, div_mul_cancel₀ _ (ne_of_gt hu)]
  unfold roundDpos
  rw [hfl, hx]
  rw [if_pos]
  linarith

/-- Positive integers below `2^53` are exactly representable doubles. -/
theorem roundDpos_intCast (k : ℤ) (h0 : 0 < k) (hk : k < 2 ^ 53) :
    roundDpos (k : ℚ) = (k : ℚ) := by
  have hx : (0 : ℚ) < (k : ℚ) := by exact_mod_cast h0
  have he : Int.log 2 (k : ℚ) < 53 := by
    apply (Int.lt_zpow_iff_log_lt (by norm_num) hx).mp
    push_cast
    calc (k : ℚ) < ((2 ^ 53 : ℤ) : ℚ) := by exact_mod_cast hk
      _ = (2 : ℚ) ^ (53 : ℤ) := by norm_num
  apply roundDpos_eq_self _ (k * 2 ^ (52 - Int.log 2 (k : ℚ)).toNat)
  unfold dUlp
  rw [div_eq_mul_inv, ← zpow_neg, neg_sub]
  push_cast
  rw [← zpow_natCast (2 : ℚ) ((52 - Int.log 2 (k : ℚ)).toNat),
    Int.toNat_of_nonneg (by omega)]

/-- Integers of magnitude below `2^53` round to themselves. -/
theorem roundDouble_intCast (k : ℤ) (hk : k.natAbs < 2 ^ 53) :
    roundDouble (k : ℚ) = (k : ℚ) := by
  rcases lt_trichotomy k 0 with hneg | rfl | hpos
  · have hzero : ¬ ((k : ℚ) = 0) := by exact_mod_cast ne_of_lt hneg
    have hnpos : ¬ ((0 : ℚ) < (k : ℚ)) := by
      push_neg
      exact_mod_cast le_of_lt hneg
    unfold roundDouble
    rw [if_neg hzero, if_neg hnpos]
    have hcast : -(k : ℚ) = ((-k : ℤ) : ℚ) := by push_cast; ring
    rw [hcast, roundDpos_intCast (-k) (by omega) (by omega)]
    push_cast
    ring
  · simp [roundDouble]
  · have hzero : ¬ ((k : ℚ) = 0) := by exact_mod_cast ne_of_gt hpos
    have hqpos : (0 : ℚ) < (k : ℚ) := by exact_mod_cast hpos
    unfold roundDouble
    rw [if_neg hzero, if_pos hqpos, roundDpos_intCast k hpos (by omega)]

/-- Cast-friendly form of `roundDouble_intCast`. -/
theorem roundDouble_of_eq_intCast (x : ℚ) (k : ℤ) (hx : x = (k : ℚ))
    (hk : k.natAbs < 2 ^ 53) : roundDouble x = x := by
  rw [hx]
  exact roundDouble_intCast k hk

/-- At input 4, all sixteen computed distances are small integers, hence
exact. -/
theorem roundDouble_exact_at_four : ∀ f ∈ FIB, roundDouble (4 - f) = 4 - f := by
  intro f hf
  simp only [FIB] at hf
  fin_cases hf
  · exact roundDouble_of_eq_intCast _ 3 (by norm_num) (by decide)
  · exact roundDouble_of_eq_intCast _ 2 (by norm_num) (by decide)
  · exact roundDouble_of_eq_intCast _ 1 (by norm_num) (by decide)
  · exact roundDouble_of_eq_intCast _ (-1) (by norm_num) (by decide)
  · exact roundDouble_of_eq_intCast _ (-4) (by norm_num) (by decide)
  · exact roundDouble_of_eq_intCast _ (-9) (by norm_num) (by decide)
  · exact roundDouble_of_eq_intCast _ (-17) (by norm_num) (by decide)
  · exact roundDouble_of_eq_intCast _ (-30) (by norm_num) (by decide)
  · exact roundDouble_of_eq_intCast _ (-51) (by norm_num) (by decide)
  · exact roundDouble_of_eq_intCast _ (-85) (by norm_num) (by decide)
  · exact roundDouble_of_eq_intCast _ (-140) (by norm_num) (by decide)
  · exact roundDouble_of_eq_intCast _ (-229) (by norm_num) (by decide)
  · exact roundDouble_of_eq_intCast _ (-373) (by norm_num) (by decide)
  · exact roundDouble_of_eq_intCast _ (-606) (by norm_num) (by decide)
  · exact roundDouble_of_eq_intCast _ (-983) (by norm_num) (by decide)
  · exact roundDouble_of_eq_intCast _ (-1593) (by norm_num) (by decide)

/-- Values within `2^16` below `2^70` are inside half an ulp of `2^70`
(the ulp below `2^70` is `2^17`), so they round up to `2^70`. -/
theorem roundDouble_big (x : ℚ) (h1 : 2 ^ 70 - 2 ^ 16 < x) (h2 : x < 2 ^ 70) :
    roundDouble x = 2 ^ 70 := by
  have hx : (0 : ℚ) < x := by
    have h3 : (0 : ℚ) < 2 ^ 70 - 2 ^ 16 := by norm_num
    linarith
  have hlog : Int.log 2 x = 69 := by
    have hlo : (69 : ℤ) ≤ Int.log 2 x := by
      apply (Int.zpow_le_iff_le_log (by norm_num) hx).mp
      push_cast
      have h4 : (2 : ℚ) ^ (69 : ℤ) = ((2 : ℚ) ^ (69 : ℕ)) := by
        rw [← zpow_natCast]
        norm_num
      rw [h4]
      have h5 : (2 : ℚ) ^ (69 : ℕ) ≤ 2 ^ 70 - 2 ^ 16 := by norm_num
      linarith
    have hhi : Int.log 2 x < 70 := by
      apply (Int.lt_zpow_iff_log_lt (by norm_num) hx).mp
      push_cast
      have h4 : (2 : ℚ) ^ (70 : ℤ) = ((2 : ℚ) ^ (70 : ℕ)) := by
        rw [← zpow_natCast]
        norm_num
      rw [h4]
      exact_mod_cast h2
    omega
  have hu : dUlp x = (2 : ℚ) ^ (17 : ℕ) := by
    unfold dUlp
    rw [hlog]
    norm_num
  have hfl : ⌊x / dUlp x⌋ = 2 ^ 53 - 1 := by
    rw [hu, Int.floor_eq_iff]
    constructor
    · rw [le_div_iff₀ (by positivity)]
      push_cast
      nlinarith
    · rw [div_lt_iff₀ (by positivity)]
      push_cast
      nlinarith
  have hne : ¬ (x = 0) := ne_of_gt hx
  unfold roundDouble roundDpos
  rw [if_neg hne, if_pos hx, hfl, hu]
  rw [if_neg (by push_cast; nlinarith), if_pos (by push_cast; nlinarith)]
  push_cast
  norm_num

/-- If no list element ever improves on the accumulator's distance, the
double-arithmetic loop keeps the accumulator. -/
theorem fibFoldD_const (n : ℚ) :
    ∀ (l : List ℚ) (acc : ℚ × ℚ), (∀ f ∈ l, ¬ |roundDouble (n - f)| < acc.2) →
      l.foldl (fibStepD n) acc = acc := by
  intro l
  induction l with
  | nil => intro _ _; rfl
  | cons c rest ih =>
    intro acc h
    have hc := h c (List.mem_cons_self c rest)
    have hstep : fibStepD n acc c = acc := by simp [fibStepD, hc]
    calc (c :: rest).foldl (fibStepD n) acc
        = rest.foldl (fibStepD n) (fibStepD n acc c) := rfl
      _ = rest.foldl (fibStepD n) acc := by rw [hstep]
      _ = acc := ih acc (fun f hf => h f (List.mem_cons_of_mem c hf))

/-- When every computed distance is exact, the double program agrees with
the exact-arithmetic idealization. -/
theorem nearestFibD_eq_exact (n : ℚ)
    (hexact : ∀ f ∈ FIB, roundDouble (n - f) = n - f) :
    nearestFibD n = nearestFibQ n := by
  unfold nearestFibD nearestFibQ
  by_cases hn : n ≤ 0
  · rw [if_pos hn, if_pos hn]
  · rw [if_neg hn, if_neg hn]
    rw [hexact (FIB.headD 0) (by decide)]
    have hsteps : ∀ (acc : ℚ × ℚ), ∀ f ∈ FIB, fibStepD n acc f = fibStep n acc f := by
      intro acc f hf
      simp [fibStepD, fibStep, hexact f hf]
    exact congrArg Prod.fst (List.foldl_ext (fibStepD n) (fibStep n) _ hsteps)

/-- C4 (counterexample): the claim says that for every positive input the
program returns a scale member minimizing the absolute distance.  At
`n = 2^70` every computed distance `Math.abs(n - f)` rounds back to `n`
(each `f ∈ FIB` is below half an ulp), so the strict-improvement test never
fires and `nearestFib` returns the seed 1, although the member 1597 is
strictly closer to `n`. -/
theorem c4_rounding_counterexample :
    (0 : ℚ) < 2 ^ 70 ∧ nearestFibD (2 ^ 70) = 1 ∧ (1597 : ℚ) ∈ FIB ∧
    |(2 ^ 70 : ℚ) - 1597| < |(2 ^ 70 : ℚ) - nearestFibD (2 ^ 70)| := by
  have hall : ∀ f ∈ FIB, |roundDouble ((2 ^ 70 : ℚ) - f)| = 2 ^ 70 := by
    intro f hf
    have hf1 : (1 : ℚ) ≤ f := by
      have hall1 : ∀ g ∈ FIB, (1 : ℚ) ≤ g := by decide
      exact hall1 f hf
    have hf2 : f ≤ 1597 := by
      have hall2 : ∀ g ∈ FIB, g ≤ (1597 : ℚ) := by decide
      exact hall2 f hf
    have hsmall : (1597 : ℚ) < 2 ^ 16 := by norm_num
    rw [roundDouble_big ((2 ^ 70 : ℚ) - f) (by linarith) (by linarith)]
    exact abs_of_pos (by norm_num)
  have hd : nearestFibD (2 ^ 70) = 1 := by
    unfold nearestFibD
    rw [if_neg (by norm_num)]
    rw [fibFoldD_const (2 ^ 70) FIB
      (FIB.headD 0, |roundDouble ((2 ^ 70 : ℚ) - FIB.headD 0)|)
      (by
        intro f hf
        rw [hall f hf, hall (FIB.headD 0) (by decide)]
        exact lt_irrefl _)]
    rfl
  refine ⟨by norm_num, hd, by decide, ?_⟩
  rw [hd]
  rw [abs_of_pos (by norm_num), abs_of_pos (by norm_num)]
  norm_num

/-- C4 (amended): for every positive input whose sixteen computed distances
`Math.abs(n - f)` are exact (no rounding) — which includes every scale
member and every midpoint of scale-adjacent members — `nearestFib` returns
a scale member minimizing the absolute distance to `n`; among equally close
members the smaller one wins, and at the midpoint of two scale-adjacent
members `a < b` (distances again exact) the result is `a`.  Without the
exactness hypothesis the conclusion fails, see `c4_rounding_counterexample`. -/
theorem c4_nearestFib_least_minimizer_amended (n : ℚ) (h : 0 < n)
    (hexact : ∀ f ∈ FIB, roundDouble (n - f) = n - f) :
    nearestFibD n ∈ FIB ∧
    (∀ f ∈ FIB, |n - nearestFibD n| ≤ |n - f|) ∧
    (∀ f ∈ FIB, |n - f| = |n - nearestFibD n| → nearestFibD n ≤ f) ∧
    (∀ a b : ℚ, a ∈ FIB → b ∈ FIB → a < b → (∀ f ∈ FIB, f ≤ a ∨ b ≤ f) →
      (∀ f ∈ FIB, roundDouble ((a + b) / 2 - f) = (a + b) / 2 - f) →
      nearestFibD ((a + b) / 2) = a) := by
  rw [nearestFibD_eq_exact n hexact]
  obtain ⟨m1, m2, m3⟩ := nearestFibQ_spec n h
  refine ⟨m1, m2, m3, ?_⟩
  intro a b ha hb hab hadj hmidexact
  rw [nearestFibD_eq_exact _ hmidexact]
  exact nearestFibQ_midpoint a b ha hb hab hadj

/-- Witness for `c4_nearestFib_least_minimizer_amended`: at `n = 4` every
computed distance is an exact small integer; the result is a scale member,
and the midpoint of the adjacent members 3 and 5 snaps to 3. -/
theorem c4_nearestFib_least_minimizer_amended_witness :
    nearestFibD 4 ∈ FIB ∧ nearestFibD ((3 + 5) / 2 : ℚ) = 3 :=
  ⟨(c4_nearestFib_least_minimizer_amended 4 (by norm_num) roundDouble_exact_at_four).1,
   (c4_nearestFib_least_minimizer_amended 4 (by norm_num) roundDouble_exact_at_four).2.2.2
     3 5 (by decide) (by decide) (by norm_num) (by decide)
     (by
       intro f hf
       rw [show ((3 + 5) / 2 : ℚ) = 4 by norm_num]
       exact roundDouble_exact_at_four f hf)⟩

/-! ## C5 — per-area means over scored criteria only -/

/-- The value list built inside `perScenarioStats` for one area is exactly
the scores of the criteria whose score is present, in order. -/
theorem scoredVals_eq (cs : List Criterion) :
    scoredVals cs = (cs.filter (fun c => c.score.isSome)).map (fun c => c.score.getD 0) := by
  induction cs with
  | nil => rfl
  | cons c rest ih =>
    cases hsc : c.score with
    | none =>
      simp [scoredVals, List.filterMap_cons, hsc, List.filter_cons]
      simpa [scoredVals] using ih
    | some q =>
      simp [scoredVals, List.filterMap_cons, hsc, List.filter_cons]
      simpa [scoredVals] using ih

/-- C5: per area, `computeMeans` is the arithmetic mean over exactly the
scored criteria of that area (score present, an explicit 0 included;
unscored criteria contribute to neither count nor sum), and an area with no
scored criterion has mean 0. -/
theorem c5_computeMeans_scored_mean (s : Scenario) (a : Area) :
    computeMeans s a = specAreaMean (s.criteria a) ∧
    ((s.criteria a).filter (fun c => c.score.isSome) = [] → computeMeans s a = 0) := by
  have key : computeMeans s a = specAreaMean (s.criteria a) := by
    unfold computeMeans specAreaMean mean
    rw [scoredVals_eq]
    simp only [List.length_map]
    by_cases hlen : ((s.criteria a).filter (fun c => c.score.isSome)).length = 0
    · simp [hlen]
    · simp [hlen, List.sum_eq_foldl]
  refine ⟨key, fun hemp => ?_⟩
  rw [key]
  simp [specAreaMean, hemp]

/-- Witness for `c5_computeMeans_scored_mean`: an empty area has mean 0,
and the area with scores `[5, −, 3]` has mean 4 (not 8/3). -/
theorem c5_computeMeans_scored_mean_witness :
    computeMeans emptyScenario Area.S = 0 ∧ computeMeans exampleScenario Area.S = 4 := by
  refine ⟨(c5_computeMeans_scored_mean emptyScenario Area.S).2 (by decide), ?_⟩
  have h := (c5_computeMeans_scored_mean exampleScenario Area.S).1
  rw [h]
  norm_num [specAreaMean, exampleScenario, List.filter_cons]

/-! ## C6 — ranking: descending by total, stable on ties -/

/-- C6: the ranking is sorted so that each element's weighted total is at
least the next one's, it is a permutation of the per-scenario statistics,
and it is stable: for every total value `t`, the ranked elements with total
`t` appear in exactly the input order. -/
theorem c6_ranking_sorted_stable (w : Weights) (scenarios : List Scenario) :
    List.Sorted rankLE (sortedForRanking w scenarios) ∧
    List.Perm (sortedForRanking w scenarios) (perScenarioStats w scenarios) ∧
    ∀ t : ℚ, (sortedForRanking w scenarios).filter (fun st => decide (st.total = t)) =
      (perScenarioStats w scenarios).filter (fun st => decide (st.total = t)) := by
  refine ⟨List.sorted_insertionSort rankLE _, List.perm_insertionSort rankLE _, ?_⟩
  intro t
  have hallt : ∀ x ∈ (perScenarioStats w scenarios).filter (fun st => decide (st.total = t)),
      x.total = t := by
    intro x hx
    have hpx := (List.mem_filter.mp hx).2
    simpa using hpx
  have hpair : ((perScenarioStats w scenarios).filter
      (fun st => decide (st.total = t))).Pairwise rankLE := by
    apply List.pairwise_of_forall_mem_list
    intro a ha b hb
    unfold rankLE
    rw [hallt a ha, hallt b hb]
  have hsub : List.Sublist
      ((perScenarioStats w scenarios).filter (fun st => decide (st.total = t)))
      (sortedForRanking w scenarios) :=
    List.sublist_insertionSort hpair (List.filter_sublist _)
  have hidem : ((perScenarioStats w scenarios).filter (fun st => decide (st.total = t))).filter
      (fun st => decide (st.total = t)) =
      (perScenarioStats w scenarios).filter (fun st => decide (st.total = t)) := by
    apply List.filter_eq_self.mpr
    intro x hx
    exact (List.mem_filter.mp hx).2
  have hsub2 : List.Sublist
      ((perScenarioStats w scenarios).filter (fun st => decide (st.total = t)))
      ((sortedForRanking w scenarios).filter (fun st => decide (st.total = t))) := by
    have h1 := hsub.filter (fun st => decide (st.total = t))
    rwa [hidem] at h1
  have hlen : ((sortedForRanking w scenarios).filter (fun st => decide (st.total = t))).length =
      ((perScenarioStats w scenarios).filter (fun st => decide (st.total = t))).length :=
    ((List.perm_insertionSort rankLE (perScenarioStats w scenarios)).filter _).length_eq
  exact (hsub2.eq_of_length hlen.symm).symm

/-! ## C7 — non-2xx response aborts with no writes -/

/-- C7: on any non-success (non-2xx) response, `aiScoreAll` returns before
issuing a single `setCriterionScore` call — the criteria record is exactly
the snapshot — and surfaces one rejection failure carrying the response's
status, status text and body. -/
theorem c7_rejection_no_writes (r : HttpResponse) (snapshot : Area → List Criterion)
    (h : resOk r = false) :
    (aiScoreAll (FetchResult.ok r) snapshot).1 = snapshot ∧
    (aiScoreAll (FetchResult.ok r) snapshot).2 =
      some (Failure.rejected r.status r.statusText r.body) := by
  simp [aiScoreAll, h]

/-- Witness for `c7_rejection_no_writes` at a concrete 503 response. -/
theorem c7_rejection_no_writes_witness :
    (aiScoreAll (FetchResult.ok (HttpResponse.mk 503 "Service Unavailable" "down" none))
      cexSnapshot).1 = cexSnapshot ∧
    (aiScoreAll (FetchResult.ok (HttpResponse.mk 503 "Service Unavailable" "down" none))
      cexSnapshot).2 = some (Failure.rejected 503 "Service Unavailable" "down") :=
  c7_rejection_no_writes _ cexSnapshot (by decide)

/-! ## C9 — the scenario set never becomes empty -/

/-- One add/remove operation preserves nonemptiness of the scenario list:
`removeScenario` refuses a removal that would empty the list. -/
theorem applyScenarioOp_length_pos (l : List Scenario) (op : ScenarioOp)
    (h : 0 < l.length) : 0 < (applyScenarioOp l op).length := by
  cases op with
  | add s => simp [applyScenarioOp, addScenario]
  | remove rid =>
    unfold applyScenarioOp removeScenario
    cases hl : l.filter (fun s => s.id != rid) with
    | nil => simpa [hl] using h
    | cons a as => simp [hl]

/-- C9: the initial state holds exactly one scenario, and no sequence of
add/remove operations ever empties the scenario set. -/
theorem c9_scenarios_never_empty (s0 : Scenario) (ops : List ScenarioOp) :
    (initialScenarios s0).length = 1 ∧ 0 < (runScenarioOps s0 ops).length := by
  refine ⟨rfl, ?_⟩
  unfold runScenarioOps
  have key : ∀ (ops : List ScenarioOp) (l : List Scenario), 0 < l.length →
      0 < (ops.foldl applyScenarioOp l).length := by
    intro ops
    induction ops with
    | nil => intro l h; exact h
    | cons op rest ih =>
      intro l h
      exact ih (applyScenarioOp l op) (applyScenarioOp_length_pos l op h)
  exact key ops (initialScenarios s0) (by simp [initialScenarios])

/-! ## C2 — applying a successful response (stale-closure write-back) -/

/-- C2 (evaluation at the failing input): with two criteria `c1`, `c2` in
area S, both unscored, and a 200 response mapping `c1 ↦ 4` and `c2 ↦ 6`,
the claim expects `c1 ↦ snap(4) = 3` and `c2 ↦ snap(6) = 5`.  The code
issues both `setCriterionScore` calls, but each call builds the scenario's
whole `criteria` record from the closure-captured `selected` snapshot, so
the second write clobbers the first: `c1` ends up still unscored while
`c2` gets 5. -/
theorem c2_stale_closure_loses_first_write :
    ((aiScoreAll (FetchResult.ok (HttpResponse.mk 200 "OK" "" (some cexData)))
        cexSnapshot).1 Area.S).map (fun c => (c.id, c.score)) =
      [("c1", (none : Option ℚ)), ("c2", some 5)] ∧
    nearestFibF (FloatVal.fin 4) = 3 ∧ nearestFibF (FloatVal.fin 6) = 5 := by
  have h4 : nearestFibF (FloatVal.fin 4) = 3 := by
    norm_num [nearestFibF, fibStepF, FIB, FloatVal.le0, FloatVal.sub, FloatVal.fabs, FloatVal.flt]
  have h6 : nearestFibF (FloatVal.fin 6) = 5 := by
    norm_num [nearestFibF, fibStepF, FIB, FloatVal.le0, FloatVal.sub, FloatVal.fabs, FloatVal.flt]
  have hupd : scoreUpdates cexData cexSnapshot =
      [(Area.S, ("c1", (3 : ℚ))), (Area.S, ("c2", (5 : ℚ)))] := by
    simp [scoreUpdates, AREAS, cexSnapshot, cexData, h4, h6]
  refine ⟨?_, h4, h6⟩
  simp [aiScoreAll, resOk, applyScores, hupd, setCriterionScore, cexSnapshot]

/-! ## C3 — service side: effect of one failing sub-call -/

/-- C3 (counterexample): the claim says a failed per-criterion sub-call is
simply omitted while the other criteria still contribute their entries.
With criterion `c1` whose sub-call throws and `c2` whose sub-call succeeds
(its entry would be `("c2", 5)`), `Promise.all` rejects and the batch
returns no mapping at all — `c2` contributes nothing. -/
theorem c3_one_failure_fails_batch_counterexample :
    processArea cexJudge [CritIn.mk "c1" "bad", CritIn.mk "c2" "good"] = Except.error () ∧
    scoreOne cexJudge "good" = Except.ok 5 := by
  refine ⟨rfl, ?_⟩
  norm_num [scoreOne, snapFib, snapStep, FIB,
    show cexJudge "good" = Except.ok (some 5) from rfl]

/-- C3 (amended): per area the handler is all-or-nothing: if any
criterion's sub-call fails, the whole batch fails and no mapping is
returned; if every sub-call succeeds, every criterion contributes exactly
its entry, in order (no criterion is ever omitted from a successful
batch). -/
theorem c3_processArea_all_or_nothing (judge : String → Except Unit (Option ℚ))
    (l : List CritIn) :
    ((∃ c ∈ l, scoreOne judge c.text = Except.error ()) →
      processArea judge l = Except.error ()) ∧
    ((∀ c ∈ l, ∃ v, scoreOne judge c.text = Except.ok v) →
      ∃ m, processArea judge l = Except.ok m ∧ m.map Prod.fst = l.map CritIn.id) := by
  induction l with
  | nil =>
    refine ⟨?_, ?_⟩
    · rintro ⟨c, hc, _⟩
      exact absurd hc (List.not_mem_nil c)
    · intro _
      exact ⟨[], rfl, rfl⟩
  | cons c rest ih =>
    refine ⟨?_, ?_⟩
    · rintro ⟨c', hc', herr⟩
      rcases List.mem_cons.mp hc' with rfl | hc'
      · unfold processArea
        rw [herr]
      · unfold processArea
        cases hs : scoreOne judge c.text with
        | error e => rfl
        | ok v => rw [ih.1 ⟨c', hc', herr⟩]
    · intro hall
      obtain ⟨v, hv⟩ := hall c (List.mem_cons_self c rest)
      obtain ⟨m, hm, hmap⟩ := ih.2 (fun c' hc' => hall c' (List.mem_cons_of_mem c hc'))
      refine ⟨(c.id, v) :: m, ?_, ?_⟩
      · unfold processArea
        rw [hv, hm]
      · simp [hmap]

/-- Witness for `c3_processArea_all_or_nothing`, discharging both branches
at concrete inputs. -/
theorem c3_processArea_all_or_nothing_witness :
    processArea cexJudge [CritIn.mk "c3" "bad"] = Except.error () ∧
    ∃ m, processArea cexJudge [CritIn.mk "c4" "fine"] = Except.ok m ∧
      m.map Prod.fst = [CritIn.mk "c4" "fine"].map CritIn.id := by
  constructor
  · exact (c3_processArea_all_or_nothing cexJudge _).1
      ⟨CritIn.mk "c3" "bad", by simp, rfl⟩
  · refine (c3_processArea_all_or_nothing cexJudge _).2 ?_
    intro c hc
    rw [List.mem_singleton.mp hc]
    exact ⟨snapFib 5, rfl⟩

/-! ## C8 — service-side snapping: values always land on the scale -/

/-- A successful `scoreOne` always yields a scale member. -/
theorem scoreOne_ok_mem (judge : String → Except Unit (Option ℚ)) (t : String) (v : ℚ)
    (h : scoreOne judge t = Except.ok v) : v ∈ FIB := by
  unfold scoreOne at h
  cases hj : judge t with
  | error e =>
    rw [hj] at h
    exact absurd h (by simp)
  | ok ps =>
    rw [hj] at h
    have hv : snapFib (ps.getD 0) = v := by injection h
    rw [← hv]
    exact snapFib_mem _

/-- Every entry of a successful per-area batch is a scale member. -/
theorem processArea_values_mem (judge : String → Except Unit (Option ℚ)) :
    ∀ (l : List CritIn) (m : List (String × ℚ)),
      processArea judge l = Except.ok m → ∀ p ∈ m, p.2 ∈ FIB := by
  intro l
  induction l with
  | nil =>
    intro m hm p hp
    unfold processArea at hm
    injection hm with hm
    rw [← hm] at hp
    exact absurd hp (List.not_mem_nil p)
  | cons c rest ih =>
    intro m hm p hp
    unfold processArea at hm
    cases hs : scoreOne judge c.text with
    | error e =>
      rw [hs] at hm
      exact absurd hm (by simp)
    | ok v =>
      rw [hs] at hm
      cases hr : processArea judge rest with
      | error e =>
        rw [hr] at hm
        exact absurd hm (by simp)
      | ok mrest =>
        rw [hr] at hm
        injection hm with hm
        rw [← hm] at hp
        rcases List.mem_cons.mp hp with rfl | hp'
        · exact scoreOne_ok_mem judge c.text v hs
        · exact ih mrest hr p hp'

/-- C8: a parsed payload whose `score` field is missing or non-numeric is
treated as raw value 0 before snapping; `snapFib` always returns a scale
member (in particular `snapFib 0 = 1`); hence every value contained in a
successful handler response mapping is a member of the fixed scale. -/
theorem c8_missing_judgment_snaps_zero :
    (∀ (judge : String → Except Unit (Option ℚ)) (t : String),
      judge t = Except.ok none → scoreOne judge t = Except.ok (snapFib 0)) ∧
    snapFib 0 = 1 ∧
    (∀ n : ℚ, snapFib n ∈ FIB) ∧
    (∀ (judge : String → Except Unit (Option ℚ)) (criteria : Area → List CritIn)
        (m : Area → List (String × ℚ)), handler judge criteria = Except.ok m →
      ∀ (a : Area) (p : String × ℚ), p ∈ m a → p.2 ∈ FIB) := by
  refine ⟨?_, by norm_num [snapFib, snapStep, FIB], fun n => snapFib_mem n, ?_⟩
  · intro judge t h
    simp [scoreOne, h]
  · intro judge criteria m hm a p hp
    unfold handler at hm
    cases hS : processArea judge (criteria Area.S) with
    | error e =>
      rw [hS] at hm
      exact absurd hm (by simp)
    | ok ls =>
      rw [hS] at hm
      cases hW : processArea judge (criteria Area.W) with
      | error e =>
        rw [hW] at hm
        exact absurd hm (by simp)
      | ok lw =>
        rw [hW] at hm
        cases hO : processArea judge (criteria Area.O) with
        | error e =>
          rw [hO] at hm
          exact absurd hm (by simp)
        | ok lo =>
          rw [hO] at hm
          cases hT : processArea judge (criteria Area.T) with
          | error e =>
            rw [hT] at hm
            exact absurd hm (by simp)
          | ok lt' =>
            rw [hT] at hm
            injection hm with hm
            rw [← hm] at hp
            cases a with
            | S => exact processArea_values_mem judge _ ls hS p hp
            | W => exact processArea_values_mem judge _ lw hW p hp
            | O => exact processArea_values_mem judge _ lo hO p hp
            | T => exact processArea_values_mem judge _ lt' hT p hp

/-- Witness for `c8_missing_judgment_snaps_zero`: a judge that never finds
a numeric score yields `snapFib 0` (which is 1) for the criterion. -/
theorem c8_missing_judgment_snaps_zero_witness :
    scoreOne judgeNone "x" = Except.ok (snapFib 0) ∧ snapFib 0 = 1 :=
  ⟨c8_missing_judgment_snaps_zero.1 judgeNone "x" rfl,
   c8_missing_judgment_snaps_zero.2.1⟩

end Swot
